import Mathlib

/-!
Shallow embedding of the SimpleGuitarTools music-theory core.

Source files embedded here:
* `src/app/utils/TabGenerator.js` — chromatic note arithmetic, fretboard
  position search, position scoring/selection, and phrase generation.
* `src/app/components/GuitarFretboard.js` — the progression-formula table
  and random chord-progression generation.

Modelling conventions:
* JavaScript numbers that are always non-negative integers in the source are
  `Nat`; quantities that can go negative mid-computation (scores, clamping
  arithmetic) are `Int`, with `Int.toNat` at the points where the source's
  value is known non-negative.
* `Math.random()`-derived draws are explicit parameters: a draw of
  `Math.floor(Math.random() * n)` is modelled as `r % n` for a caller-chosen
  `r : Nat`, so every concrete run of the source corresponds to some choice
  of the parameters and theorems quantify over all of them.
* `Array.prototype.sort` with the comparator `(a, b) => b.score - a.score`
  is modelled as a stable insertion sort descending by score; only the
  sortedness/permutation behaviour of the source's sort is relied upon.
-/

/-- The 12-note chromatic alphabet (`allNotes` in both source files). -/
def allNotes : List String :=
  ["A", "A#", "B", "C", "C#", "D", "D#", "E", "F", "F#", "G", "G#"]

/-- Default tuning used by `generatePhrase`/`generateProgressionPhrases`
(high-E first, as in `TabGenerator.js`). -/
def stdTuning : List String := ["E", "B", "G", "D", "A", "E"]

/-- A fretboard position object `{string, fret}` as produced by
`findNotePositions`. -/
structure Position where
  string : Nat
  fret : Nat
deriving DecidableEq

/-- A `TabNote` `{string, fret}` as pushed by `generatePhrase`. -/
structure TabNote where
  string : Nat
  fret : Nat
deriving DecidableEq

/-- A `TabPhrase` `{chordName, notes}`. -/
structure TabPhrase where
  chordName : String
  notes : List TabNote
deriving DecidableEq

/-- The `GenerationOptions` record of `TabGenerator.js`. -/
structure GenerationOptions where
  phraseLength : Nat
  preferredPosition : Nat
  emphasizeChordTones : Bool
  positionRange : Nat
deriving DecidableEq

/-- `this.defaultOptions` from the `TabGenerator` constructor. -/
def defaultOptions : GenerationOptions :=
  ⟨6, 5, true, 4⟩

/-- `TabGenerator.getNoteAt(baseNote, fret)`: JS `indexOf` returning `-1`
(absent) is modelled by `List.findIdx?` returning `none`; the guard
`baseIndex < 0` then returns the empty string. -/
def getNoteAt (baseNote : String) (fret : Nat) : String :=
  match allNotes.findIdx? (fun n => n == baseNote) with
  | none => ""
  | some baseIndex => allNotes.getD ((baseIndex + fret) % 12) ""

/-- The fret values `minFret, minFret+1, ..., maxFret` scanned by the
`for (let fret = minFret; fret <= maxFret; fret++)` loop. -/
def fretRange (minFret maxFret : Nat) : List Nat :=
  (List.range (maxFret + 1 - minFret)).map (fun k => minFret + k)

/-- `TabGenerator.findNotePositions(note, tuning, minFret, maxFret)`:
for each string (in `tuning.forEach` order) and each fret in the window,
push `{string: stringIndex, fret}` whenever `getNoteAt(openNote, fret)`
equals the target note. -/
def findNotePositions (note : String) (tuning : List String)
    (minFret maxFret : Nat) : List Position :=
  ((tuning.enum).map (fun p =>
    (fretRange minFret maxFret).filterMap (fun fret =>
      if getNoteAt p.2 fret = note then some ⟨p.1, fret⟩ else none))).flatten

/-- `TabGenerator.filterPositionsByRange(positions, centerPosition, range)`.
The JS `Math.max(0, center - floor(range/2))` coincides with truncated `Nat`
subtraction. -/
def filterPositionsByRange (positions : List Position)
    (centerPosition range : Nat) : List Position :=
  let minFret := centerPosition - range / 2
  let maxFret := min 12 (centerPosition + range / 2)
  positions.filter (fun pos => minFret ≤ pos.fret && pos.fret ≤ maxFret)

/-- `TabGenerator.scorePosition(position, note, chordNotes,
emphasizeChordTones, preferredPosition)`: the sum of the five `score +=`
terms of the source, as an integer. -/
def scorePosition (position : Position) (note : String)
    (chordNotes : List String) (emphasizeChordTones : Bool)
    (preferredPosition : Nat) : Int :=
  let chordBonus : Int :=
    if emphasizeChordTones && chordNotes.contains note then 10 else 0
  let distanceFromPreferred : Int :=
    |(position.fret : Int) - (preferredPosition : Int)|
  let closenessBonus : Int := max 0 (5 - distanceFromPreferred)
  let stringBonus : Int :=
    if 1 ≤ position.string ∧ position.string ≤ 4 then 3 else 0
  let openPenalty : Int := if position.fret = 0 then -2 else 0
  let comfortBonus : Int :=
    if 3 ≤ position.fret ∧ position.fret ≤ 9 then 2 else 0
  chordBonus + closenessBonus + stringBonus + openPenalty + comfortBonus

/-- The fret-dependent part of `scorePosition` (closeness bonus, open-string
penalty, comfort-band bonus); used to factor the monotonicity argument. -/
def fretScore (fret preferredPosition : Nat) : Int :=
  max 0 (5 - |(fret : Int) - (preferredPosition : Int)|) +
    (if fret = 0 then -2 else 0) +
    (if 3 ≤ fret ∧ fret ≤ 9 then 2 else 0)

/-- Stable insertion (descending by score) modelling one step of the JS
`sort((a, b) => b.score - a.score)`. -/
def insertByScore (x : Position × Int) :
    List (Position × Int) → List (Position × Int)
  | [] => [x]
  | y :: ys => if x.2 < y.2 then y :: insertByScore x ys else x :: y :: ys

/-- Stable sort, descending by score, modelling the JS
`scoredPositions.sort((a, b) => b.score - a.score)`. -/
def sortByScoreDesc : List (Position × Int) → List (Position × Int)
  | [] => []
  | x :: xs => insertByScore x (sortByScoreDesc xs)

/-- `TabGenerator.selectBestPosition(note, tuning, chordNotes, options)`.
The single `Math.floor(Math.random() * len)` draw of each branch is
modelled by `randPick % len`. -/
def selectBestPosition (note : String) (tuning : List String)
    (chordNotes : List String) (opts : GenerationOptions)
    (randPick : Nat) : Option Position :=
  let allPositions := findNotePositions note tuning 0 12
  let filteredPositions :=
    filterPositionsByRange allPositions opts.preferredPosition
      opts.positionRange
  if filteredPositions.length = 0 then
    if allPositions.length = 0 then none
    else allPositions.get? (randPick % allPositions.length)
  else
    let scoredPositions := filteredPositions.map (fun pos =>
      (pos, scorePosition pos note chordNotes opts.emphasizeChordTones
        opts.preferredPosition))
    let sorted := sortByScoreDesc scoredPositions
    let topPositions := sorted.take (min 3 sorted.length)
    (topPositions.get? (randPick % topPositions.length)).map Prod.fst

/-- `TabGenerator.createArpeggiatedSequence(chordNotes, length)`: element `i`
is `chordNotes[i % chordNotes.length]`; empty input yields the empty
sequence. -/
def createArpeggiatedSequence (chordNotes : List String) (length : Nat) :
    List String :=
  if chordNotes.length = 0 then []
  else (List.range length).map (fun i =>
    chordNotes.getD (i % chordNotes.length) "")

/-- `TabGenerator.generatePhrase(chordName, chordNotes, scaleNotes, tuning,
options)`. `rand i` supplies the random draw consumed by
`selectBestPosition` for the `i`-th note of the sequence. -/
def generatePhrase (chordName : String)
    (chordNotes scaleNotes tuning : List String)
    (opts : GenerationOptions) (rand : Nat → Nat) : TabPhrase :=
  let workingScale := if scaleNotes.length > 0 then scaleNotes else chordNotes
  if workingScale.length = 0 then ⟨chordName, []⟩
  else
    let noteSequence := createArpeggiatedSequence chordNotes opts.phraseLength
    let tabNotes := (noteSequence.enum).filterMap (fun p =>
      (selectBestPosition p.2 tuning chordNotes opts (rand p.1)).map
        (fun position => (⟨position.string, position.fret⟩ : TabNote)))
    ⟨chordName, tabNotes⟩

/-- One entry of the `chordProgression` argument of
`generateProgressionPhrases`. `notes` is an `Option` because the JS guard
`!chord.notes` distinguishes a missing/null `notes` field (skipped) from a
present-but-empty array (processed: `[]` is truthy in JS). -/
structure ChordEntry where
  name : String
  notes : Option (List String)
deriving DecidableEq

/-- The body of the `chordProgression.forEach` loop of
`generateProgressionPhrases`, for the entry `p.2` at index `p.1`:
skip on `!chord.name || !chord.notes`, otherwise vary phrase length by the
random draw `randVar p.1` and preferred position by the cyclic
`(index % 3) - 1`, and generate the phrase. -/
def phraseForEntry (scaleNotes tuning : List String)
    (opts : GenerationOptions) (randVar : Nat → Nat)
    (randPos : Nat → Nat → Nat) (p : Nat × ChordEntry) : Option TabPhrase :=
  if p.2.name = "" then none
  else
    match p.2.notes with
    | none => none
    | some notes =>
      let variation : Int := ((randVar p.1 % 3 : Nat) : Int) - 1
      let phraseLength : Nat :=
        (max 4 (min 8 ((opts.phraseLength : Int) + variation))).toNat
      let positionVariation : Int := ((p.1 % 3 : Nat) : Int) - 1
      let preferredPosition : Nat :=
        (max 3 (min 9 ((opts.preferredPosition : Int) +
          positionVariation))).toNat
      some (generatePhrase p.2.name notes scaleNotes tuning
        ⟨phraseLength, preferredPosition, opts.emphasizeChordTones,
          opts.positionRange⟩ (randPos p.1))

/-- `TabGenerator.generateProgressionPhrases(chordProgression, scaleNotes,
tuning, options)`: the `forEach`-with-`push` loop as a `filterMap` over the
indexed progression. -/
def generateProgressionPhrases (chordProgression : List ChordEntry)
    (scaleNotes tuning : List String) (opts : GenerationOptions)
    (randVar : Nat → Nat) (randPos : Nat → Nat → Nat) : List TabPhrase :=
  (chordProgression.enum).filterMap
    (phraseForEntry scaleNotes tuning opts randVar randPos)

/-- A progression formula `{label, pattern}` from `GuitarFretboard.js`. -/
structure Formula where
  label : String
  pattern : List Int
deriving DecidableEq

/-- `totalFrets` from `GuitarFretboard.js`. -/
def totalFrets : Nat := 12

/-- The `progressionFormulas` table of `GuitarFretboard.js` (the component's
own table, not the copy local to its test file). -/
def progressionFormulas : List Formula :=
  [⟨"Folk: I – V – vi – IV", [0, 7, 9, 5]⟩,
   ⟨"Pop: vi – IV – I – V", [9, 5, 0, 7]⟩,
   ⟨"Sad Pop: I – vi – iii – IV", [0, 9, 4, 5]⟩,
   ⟨"Indie: I – iii – vi – V", [0, 4, 9, 7]⟩,
   ⟨"Cinematic: i – VI – III – VII", [0, -3, -8, -1]⟩,
   ⟨"Classic Rock: I – IV – V – IV", [0, 5, 7, 5]⟩,
   ⟨"Melancholy Minor: i – VII – VI – iv", [0, -1, -2, -5]⟩,
   ⟨"Dramatic Minor: i – v – VI – III", [0, -2, -4, -7]⟩]

/-- The per-step minor test of `generateProgression`:
`/i/.test(label.split(":")[1]?.split("–")[i]?.trim())`. Out-of-range
indices are given default `""` (all in-repo uses are in range, so this
agrees with the JS on every reachable input). -/
def isMinorNumeral (label : String) (i : Nat) : Bool :=
  ((((label.splitOn ":").getD 1 "").splitOn "–").getD i "").trim.contains 'i'

/-- One `{name, fret}` entry of the UI chord-progression state. -/
structure ProgEntry where
  name : String
  fret : Nat
deriving DecidableEq

/-- `generateProgression` from `GuitarFretboard.js`. The draw
`Math.floor(Math.random() * (totalFrets - 4)) + 4` is modelled as
`randBase % (totalFrets - 4) + 4`. `rootIndex` is `-1` when the key is not
canonical, exactly like JS `indexOf`; `rootIndex + offset + 12` is
non-negative for every offset in the table, so the JS `%` agrees with
`Int.emod` here. `Math.max(baseFret - i * 2, 0)` is truncated `Nat`
subtraction. -/
def generateProgression (progressionKey : String) (formulaIndex : Nat)
    (randBase : Nat) : List ProgEntry :=
  let formula := (progressionFormulas.getD formulaIndex ⟨"", []⟩).pattern
  let label := (progressionFormulas.getD formulaIndex ⟨"", []⟩).label
  let rootIndex : Int :=
    match allNotes.findIdx? (fun n => n == progressionKey) with
    | none => -1
    | some i => (i : Int)
  let baseFret := randBase % (totalFrets - 4) + 4
  (formula.enum).map (fun p =>
    let noteIndex := ((rootIndex + p.2 + 12) % 12).toNat
    let isMinor := isMinorNumeral label p.1
    let chordName :=
      allNotes.getD noteIndex "" ++ " " ++ (if isMinor then "Minor" else "Major")
    let fret := baseFret - p.1 * 2
    (⟨chordName, fret⟩ : ProgEntry))

/-- A fixed random source used to instantiate random-draw parameters in
closed statements. -/
def zeroRand : Nat → Nat := fun _ => 0

/-- A fixed two-argument random source for `generateProgressionPhrases`. -/
def zeroRandPos : Nat → Nat → Nat := fun _ _ => 0


/-- When the base note is not canonical, the `indexOf` search fails. -/
lemma findIdx_eq_none_of_not_mem {base : String} (h : base ∉ allNotes) :
    allNotes.findIdx? (fun n => n == base) = none := by
  cases hf : allNotes.findIdx? (fun n => n == base) with
  | none => rfl
  | some i =>
    have hs := @List.findIdx?_isSome _ allNotes (fun n => n == base)
    rw [hf] at hs
    have hany : allNotes.any (fun n => n == base) = true := by
      simpa using hs.symm
    rw [List.any_eq_true] at hany
    obtain ⟨x, hx, hxe⟩ := hany
    exact absurd ((eq_of_beq hxe) ▸ hx) h

/-- Every chromatic table lookup at a reduced index is a canonical note. -/
lemma getD_mod_mem (i fret : Nat) :
    allNotes.getD ((i + fret) % 12) "" ∈ allNotes := by
  have hlen : allNotes.length = 12 := rfl
  have h12 : (i + fret) % 12 < allNotes.length := by
    rw [hlen]; exact Nat.mod_lt _ (by norm_num)
  rw [List.getD_eq_getElem _ _ h12]
  exact List.getElem_mem h12


/-- C10: `TabGenerator.getNoteAt` is total over all string/fret inputs: it
returns a member of the 12-note canonical table when the base note is
canonical, and the empty string otherwise; it never raises. -/
theorem getNoteAt_total (base : String) (fret : Nat) :
    (base ∈ allNotes → getNoteAt base fret ∈ allNotes) ∧
    (base ∉ allNotes → getNoteAt base fret = "") := by
  constructor
  · intro hmem
    cases hf : allNotes.findIdx? (fun n => n == base) with
    | none =>
      have hs := @List.findIdx?_isSome _ allNotes (fun n => n == base)
      rw [hf] at hs
      have hany : allNotes.any (fun n => n == base) = true :=
        List.any_eq_true.mpr ⟨base, hmem, by simp⟩
      rw [hany] at hs
      cases hs
    | some i =>
      unfold getNoteAt
      rw [hf]
      exact getD_mod_mem i fret
  · intro hnot
    unfold getNoteAt
    rw [findIdx_eq_none_of_not_mem hnot]

/-- Witness for C10 at the canonical base `"E"` and the non-canonical base
`"X"`. -/
theorem getNoteAt_total_witness :
    ("E" ∈ allNotes ∧ getNoteAt "E" 3 ∈ allNotes) ∧
    ("X" ∉ allNotes ∧ getNoteAt "X" 5 = "") :=
  ⟨⟨by decide, (getNoteAt_total "E" 3).1 (by decide)⟩,
   ⟨by decide, (getNoteAt_total "X" 5).2 (by decide)⟩⟩

/-- C5 counterexample: on a non-canonical base note the chromatic operation
does not fail with an error — it returns the empty string as an ordinary
value (this is also asserted by the repository's own unit test). -/
theorem getNoteAt_invalid_counterexample :
    getNoteAt "X" 5 = "" ∧ "X" ∉ allNotes := by
  exact ⟨rfl, by decide⟩

/-- C5 (amended): for every fret, calling `getNoteAt` with an open-string
note name that is not one of the 12 canonical names returns the empty
string `""` and never raises. -/
theorem getNoteAt_invalid_base (fret : Nat) (base : String)
    (h : base ∉ allNotes) : getNoteAt base fret = "" := by
  unfold getNoteAt
  rw [findIdx_eq_none_of_not_mem h]

/-- Witness for C5 (amended) at base `"X"`, fret `7`. -/
theorem getNoteAt_invalid_base_witness :
    "X" ∉ allNotes ∧ getNoteAt "X" 7 = "" :=
  ⟨by decide, getNoteAt_invalid_base 7 "X" (by decide)⟩

/-- C9: octave periodicity of the chromatic note arithmetic — for every
base-note string and every fret, `getNoteAt n f = getNoteAt n (f + 12)`. -/
theorem getNoteAt_octave_periodic (n : String) (f : Nat) :
    getNoteAt n f = getNoteAt n (f + 12) := by
  unfold getNoteAt
  cases hf : allNotes.findIdx? (fun x => x == n) with
  | none => rfl
  | some i =>
    show allNotes.getD ((i + f) % 12) "" = allNotes.getD ((i + (f + 12)) % 12) ""
    have hmod : (i + (f + 12)) % 12 = (i + f) % 12 := by omega
    rw [hmod]

/-- Decomposition of `scorePosition` into the note/chord bonus, the string
bonus, and the fret-dependent terms. -/
lemma scorePosition_decomp (pos : Position) (note : String)
    (cn : List String) (e : Bool) (p : Nat) :
    scorePosition pos note cn e p =
      (if e && cn.contains note then 10 else 0) +
      (if 1 ≤ pos.string ∧ pos.string ≤ 4 then 3 else 0) +
      fretScore pos.fret p := by
  simp only [scorePosition, fretScore]
  ring

/-- On the fretboard range, the fret-dependent score terms are maximised at
the anchor fret, for every anchor other than 0, 2 and 10. -/
lemma fretScore_preferred_max :
    ∀ p, p < 13 → p ≠ 0 → p ≠ 2 → p ≠ 10 →
      ∀ f, f < 13 → fretScore f p ≤ fretScore p p := by decide

/-- C1 (amended): for a fixed note, chord-note set, emphasis flag and anchor
fret `preferredPosition ∈ [0,12] \ {0, 2, 10}`, a candidate at fret
`preferredPosition` scores at least as high as a candidate at any other
fret on the same string. (At anchors 0, 2 and 10 the property fails, see
the counterexample.) -/
theorem scorePosition_at_preferred_ge (note : String)
    (chordNotes : List String) (emphasizeChordTones : Bool) (s p f : Nat)
    (hp : p ≤ 12) (h0 : p ≠ 0) (h2 : p ≠ 2) (h10 : p ≠ 10) (hf : f ≤ 12) :
    scorePosition ⟨s, f⟩ note chordNotes emphasizeChordTones p ≤
      scorePosition ⟨s, p⟩ note chordNotes emphasizeChordTones p := by
  rw [scorePosition_decomp, scorePosition_decomp]
  exact add_le_add_left
    (fretScore_preferred_max p (by omega) h0 h2 h10 f (by omega)) _

/-- C1 counterexample: with anchor `preferredPosition = 0` (which lies in
the claimed range 0..12), the candidate at fret 0 — the anchor fret —
scores strictly below the candidate at fret 1 on the same string, because
the open-string penalty outweighs the closeness bonus. -/
theorem scorePosition_at_preferred_counterexample :
    scorePosition ⟨2, 0⟩ "C" [] false 0 <
      scorePosition ⟨2, 1⟩ "C" [] false 0 := by decide

/-- Witness for C1 (amended) at anchor 5, competing fret 9, string 2. -/
theorem scorePosition_at_preferred_witness :
    scorePosition ⟨2, 9⟩ "C" ["C"] true 5 ≤
      scorePosition ⟨2, 5⟩ "C" ["C"] true 5 :=
  scorePosition_at_preferred_ge "C" ["C"] true 2 5 9 (by decide) (by decide)
    (by decide) (by decide) (by decide)

/-- C2 counterexample: with empty `chordNotes` and non-empty `scaleNotes`,
`generatePhrase` does NOT fall back to cycling the scale notes — the
arpeggiated sequence is built from `chordNotes` only, so it is empty and
the returned phrase has an empty note list even though the (default)
phrase length is positive and the scale is non-empty. -/
theorem generatePhrase_fallback_counterexample :
    (generatePhrase "X" [] ["C"] stdTuning defaultOptions zeroRand).notes
      = [] ∧
    0 < defaultOptions.phraseLength ∧ (["C"] : List String) ≠ [] :=
  ⟨rfl, by decide, by decide⟩

/-- C2 (amended): the default arpeggiated strategy cycles `chordNotes`
(element `i` of the sequence is `chordNotes[i mod chordNotes.length]`),
and whenever `chordNotes` is empty — whether or not `scaleNotes` is
empty — there is no fallback: `generatePhrase` returns
`{ chordName, notes: [] }` without raising. -/
theorem generatePhrase_arpeggiation :
    (∀ (chordNotes : List String) (len i : Nat), chordNotes ≠ [] → i < len →
      (createArpeggiatedSequence chordNotes len).get? i =
        some (chordNotes.getD (i % chordNotes.length) "")) ∧
    (∀ (chordName : String) (scaleNotes tuning : List String)
      (opts : GenerationOptions) (rand : Nat → Nat),
      generatePhrase chordName [] scaleNotes tuning opts rand =
        ⟨chordName, []⟩) := by
  constructor
  · intro cn len i hne hi
    unfold createArpeggiatedSequence
    rw [if_neg (by simpa using hne)]
    rw [List.get?_map, List.get?_range hi]
    rfl
  · intro name sn tuning opts rand
    cases sn with
    | nil => rfl
    | cons a l =>
      unfold generatePhrase
      simp [createArpeggiatedSequence]

/-- Witness for C2 (amended): cycling of a concrete 3-note chord, and the
no-fallback behaviour on a concrete call. -/
theorem generatePhrase_arpeggiation_witness :
    ((["C", "E", "G"] : List String) ≠ [] ∧ (4 : Nat) < 6 ∧
      (createArpeggiatedSequence ["C", "E", "G"] 6).get? 4 = some "E") ∧
    generatePhrase "N" [] ["C"] stdTuning defaultOptions zeroRand =
      ⟨"N", []⟩ :=
  ⟨⟨by decide, by decide,
    generatePhrase_arpeggiation.1 ["C", "E", "G"] 6 4 (by decide) (by decide)⟩,
   generatePhrase_arpeggiation.2 "N" ["C"] stdTuning defaultOptions zeroRand⟩

/-- Auxiliary count for C3: processing the indexed progression keeps exactly
the entries whose name is non-empty and whose notes field is present, no
matter at which index the enumeration starts. -/
lemma filterMap_phraseForEntry_length (scaleNotes tuning : List String)
    (opts : GenerationOptions) (randVar : Nat → Nat)
    (randPos : Nat → Nat → Nat) :
    ∀ (l : List ChordEntry) (n : Nat),
      ((List.enumFrom n l).filterMap
        (phraseForEntry scaleNotes tuning opts randVar randPos)).length =
      (l.filter (fun c => c.notes.isSome && (c.name != ""))).length := by
  intro l
  induction l with
  | nil => intro n; rfl
  | cons c rest ih =>
    intro n
    show ((((n, c) :: List.enumFrom (n + 1) rest)).filterMap
      (phraseForEntry scaleNotes tuning opts randVar randPos)).length = _
    by_cases hname : c.name = ""
    · have hpe : phraseForEntry scaleNotes tuning opts randVar randPos (n, c)
          = none := by
        unfold phraseForEntry
        rw [if_pos hname]
      rw [List.filterMap_cons_none hpe,
        List.filter_cons_of_neg (by simp [hname])]
      exact ih (n + 1)
    · cases hns : c.notes with
      | none =>
        have hpe : phraseForEntry scaleNotes tuning opts randVar randPos
            (n, c) = none := by
          unfold phraseForEntry
          rw [if_neg hname]
          simp only [hns]
        rw [List.filterMap_cons_none hpe,
          List.filter_cons_of_neg (by simp [hns])]
        exact ih (n + 1)
      | some notes =>
        have hpe : (phraseForEntry scaleNotes tuning opts randVar randPos
            (n, c)).isSome := by
          unfold phraseForEntry
          rw [if_neg hname]
          simp only [hns, Option.isSome_some]
        obtain ⟨ph, hpe⟩ := Option.isSome_iff_exists.mp hpe
        rw [List.filterMap_cons_some hpe,
          List.filter_cons_of_pos (by simp [hns, hname])]
        simp only [List.length_cons]
        rw [ih (n + 1)]

/-- C3 (amended): the output length of `generateProgressionPhrases` equals
the number of progression entries whose chord name is non-empty AND whose
`notes` field is present (non-null). Entries with a present-but-empty note
list are NOT skipped: the JS guard `!chord.notes` is false for an empty
array, so such entries contribute a phrase (with an empty note list). -/
theorem generateProgressionPhrases_output_length (prog : List ChordEntry)
    (scaleNotes tuning : List String) (opts : GenerationOptions)
    (randVar : Nat → Nat) (randPos : Nat → Nat → Nat) :
    (generateProgressionPhrases prog scaleNotes tuning opts randVar
        randPos).length =
      (prog.filter (fun c => c.notes.isSome && (c.name != ""))).length := by
  unfold generateProgressionPhrases
  exact filterMap_phraseForEntry_length scaleNotes tuning opts randVar
    randPos prog 0

/-- C3 counterexample: a progression entry with a non-empty name and an
empty (but present) note list is not skipped — it produces an output
element (an empty phrase), so the output has length 1 where the claim
requires such entries to "produce no output element at all". -/
theorem generateProgressionPhrases_counterexample :
    generateProgressionPhrases [⟨"C Major", some []⟩] [] stdTuning
        defaultOptions zeroRand zeroRandPos = [⟨"C Major", []⟩] ∧
    (generateProgressionPhrases [⟨"C Major", some []⟩] [] stdTuning
        defaultOptions zeroRand zeroRandPos).length ≠ 0 := by
  exact ⟨rfl, by decide⟩

/-- C4 counterexample: with the random draw 7, `generateProgression` picks
base fret `7 % 8 + 4 = 11`, which lies outside the claimed range [4, 8];
the generated root frets are 11, 9, 7, 5. -/
theorem generateProgression_base_counterexample :
    (generateProgression "C" 0 7).map ProgEntry.fret = [11, 9, 7, 5] ∧
    ¬((11 : Nat) ≤ 8) :=
  ⟨rfl, by decide⟩

/-- C4 (amended): for every key, every formula index in range, and every
random draw, the base fret `b = draw % 8 + 4` lies in [4, 11] (not [4, 8]),
and the four generated entries have root frets `b, b-2, b-4, b-6`
(truncated at 0), i.e. `max(b - 2*i, 0)` for `i = 0..3`. -/
theorem generateProgression_frets (key : String) (fi r : Nat)
    (h : fi < progressionFormulas.length) :
    4 ≤ r % 8 + 4 ∧ r % 8 + 4 ≤ 11 ∧
    (generateProgression key fi r).map ProgEntry.fret =
      [r % 8 + 4, r % 8 + 4 - 2, r % 8 + 4 - 4, r % 8 + 4 - 6] := by
  refine ⟨by omega, by omega, ?_⟩
  have h8 : fi < 8 := h
  interval_cases fi <;>
    simp [generateProgression, progressionFormulas, totalFrets,
      List.enum, List.enumFrom]

/-- Witness for C4 (amended) at key C, formula 0, draw 7. -/
theorem generateProgression_frets_witness :
    4 ≤ 7 % 8 + 4 ∧ 7 % 8 + 4 ≤ 11 ∧
    (generateProgression "C" 0 7).map ProgEntry.fret =
      [7 % 8 + 4, 7 % 8 + 4 - 2, 7 % 8 + 4 - 4, 7 % 8 + 4 - 6] :=
  generateProgression_frets "C" 0 7 (by decide)

/-- C6: the component's process-wide `progressionFormulas` table as it
actually stands in `GuitarFretboard.js`: exactly 8 formulas, with no
Spanish or Spanish Romantic entry — contradicting the repository's own
integration test, which renders the component and expects a
"Spanish Romantic: i – VII – VI – V" option at formula index 9. -/
theorem progressionFormulas_table :
    progressionFormulas.map Formula.label =
      ["Folk: I – V – vi – IV", "Pop: vi – IV – I – V",
       "Sad Pop: I – vi – iii – IV", "Indie: I – iii – vi – V",
       "Cinematic: i – VI – III – VII", "Classic Rock: I – IV – V – IV",
       "Melancholy Minor: i – VII – VI – iv",
       "Dramatic Minor: i – v – VI – III"] ∧
    progressionFormulas.length = 8 ∧
    ¬(10 ≤ progressionFormulas.length) ∧
    "Spanish: i – VII – VI – V" ∉ progressionFormulas.map Formula.label ∧
    "Spanish Romantic: i – VII – VI – V" ∉
      progressionFormulas.map Formula.label :=
  ⟨rfl, rfl, by decide, by decide, by decide⟩

/-- Fret values scanned by the position search lie in the requested
window. -/
lemma mem_fretRange {minF maxF fr : Nat} (h : fr ∈ fretRange minF maxF) :
    minF ≤ fr ∧ fr ≤ maxF := by
  unfold fretRange at h
  rw [List.mem_map] at h
  obtain ⟨k, hk, hfr⟩ := h
  rw [List.mem_range] at hk
  omega

/-- Soundness of the position search: every returned position arises from a
string of the tuning and a fret in the window at which `getNoteAt` yields
the target note. -/
lemma mem_findNotePositions {note : String} {tuning : List String}
    {minF maxF : Nat} {pos : Position}
    (h : pos ∈ findNotePositions note tuning minF maxF) :
    pos.string < tuning.length ∧ minF ≤ pos.fret ∧ pos.fret ≤ maxF ∧
      getNoteAt (tuning.getD pos.string "") pos.fret = note := by
  unfold findNotePositions at h
  rw [List.mem_flatten] at h
  obtain ⟨sub, hsub, hpos⟩ := h
  rw [List.mem_map] at hsub
  obtain ⟨q, hq, rfl⟩ := hsub
  rw [List.mem_filterMap] at hpos
  obtain ⟨fr, hfr, hif⟩ := hpos
  have hrange := mem_fretRange hfr
  by_cases hc : getNoteAt q.2 fr = note
  · rw [if_pos hc, Option.some_inj] at hif
    obtain ⟨i, x⟩ := q
    have he := List.mem_enumFrom (show ((i, x) ∈ List.enumFrom 0 tuning) from hq)
    have hilen : i < tuning.length := by omega
    have hgetd : tuning.getD i "" = x := by
      rw [List.getD_eq_getElem _ _ hilen, he.2.2]
      simp
    subst hif
    exact ⟨hilen, hrange.1, hrange.2, by rw [hgetd]; exact hc⟩
  · rw [if_neg hc] at hif
    cases hif

/-- C7: every position `{string, fret}` returned by `findNotePositions`
satisfies `getNoteAt(tuning[string], fret) = note` and
`minFret ≤ fret ≤ maxFret` — the returned set contains only genuine
occurrences of the note inside the requested window. -/
theorem findNotePositions_sound (note : String) (tuning : List String)
    (minFret maxFret : Nat) (hb : minFret ≤ maxFret) (pos : Position)
    (hpos : pos ∈ findNotePositions note tuning minFret maxFret) :
    pos.string < tuning.length ∧ minFret ≤ pos.fret ∧ pos.fret ≤ maxFret ∧
      getNoteAt (tuning.getD pos.string "") pos.fret = note :=
  mem_findNotePositions hpos

/-- Witness for C7: the open high-E string occurrence of the note E in the
standard tuning within the window [0, 12]. -/
theorem findNotePositions_sound_witness :
    ((0 : Nat) ≤ 12 ∧
      (⟨0, 0⟩ : Position) ∈ findNotePositions "E" stdTuning 0 12) ∧
    ((⟨0, 0⟩ : Position).string < stdTuning.length ∧
      0 ≤ (⟨0, 0⟩ : Position).fret ∧ (⟨0, 0⟩ : Position).fret ≤ 12 ∧
      getNoteAt (stdTuning.getD (⟨0, 0⟩ : Position).string "")
        (⟨0, 0⟩ : Position).fret = "E") :=
  ⟨⟨by decide, by decide⟩,
   findNotePositions_sound "E" stdTuning 0 12 (by decide) ⟨0, 0⟩ (by decide)⟩

/-- Insertion into the score-sorted list adds no new elements. -/
lemma mem_insertByScore {x y : Position × Int} :
    ∀ {l : List (Position × Int)}, y ∈ insertByScore x l → y = x ∨ y ∈ l := by
  intro l
  induction l with
  | nil =>
    intro h
    rw [insertByScore] at h
    rcases List.mem_cons.1 h with h1 | h1
    · exact Or.inl h1
    · cases h1
  | cons z zs ih =>
    intro h
    rw [insertByScore] at h
    split at h
    · rcases List.mem_cons.1 h with h1 | h2
      · exact Or.inr (List.mem_cons.2 (Or.inl h1))
      · rcases ih h2 with h3 | h4
        · exact Or.inl h3
        · exact Or.inr (List.mem_cons.2 (Or.inr h4))
    · rcases List.mem_cons.1 h with h1 | h2
      · exact Or.inl h1
      · exact Or.inr h2

/-- The score sort is a reordering: its members come from the input list. -/
lemma mem_sortByScoreDesc {y : Position × Int} :
    ∀ {l : List (Position × Int)}, y ∈ sortByScoreDesc l → y ∈ l := by
  intro l
  induction l with
  | nil => intro h; cases h
  | cons x xs ih =>
    intro h
    rw [sortByScoreDesc] at h
    rcases mem_insertByScore h with h1 | h2
    · exact List.mem_cons.2 (Or.inl h1)
    · exact List.mem_cons.2 (Or.inr (ih h2))

/-- Every position selected by `selectBestPosition` comes from the full
fretboard search over frets 0..12. -/
lemma selectBestPosition_mem {note : String} {tuning chordNotes : List String}
    {opts : GenerationOptions} {r : Nat} {pos : Position}
    (h : selectBestPosition note tuning chordNotes opts r = some pos) :
    pos ∈ findNotePositions note tuning 0 12 := by
  simp only [selectBestPosition] at h
  split at h
  · split at h
    · cases h
    · exact List.get?_mem h
  · rw [Option.map_eq_some'] at h
    obtain ⟨x, hx, hx1⟩ := h
    have hxtop := List.get?_mem hx
    have hxsorted := List.take_subset _ _ hxtop
    have hxscored := mem_sortByScoreDesc hxsorted
    rw [List.mem_map] at hxscored
    obtain ⟨pos', hpos', hpe⟩ := hxscored
    have hpp : pos' = pos := by rw [← hpe] at hx1; simpa using hx1
    subst hpp
    have hfil : pos' ∈ List.filter _ (findNotePositions note tuning 0 12) :=
      hpos'
    exact (List.mem_filter.1 hfil).1

/-- The note list of a generated phrase is either the early-return empty
list or the `filterMap` of position selection over the arpeggiated
sequence. -/
lemma generatePhrase_notes_cases (chordName : String)
    (chordNotes scaleNotes tuning : List String) (opts : GenerationOptions)
    (rand : Nat → Nat) :
    (generatePhrase chordName chordNotes scaleNotes tuning opts rand).notes
      = [] ∨
    (generatePhrase chordName chordNotes scaleNotes tuning opts rand).notes
      = (createArpeggiatedSequence chordNotes opts.phraseLength).enum.filterMap
        (fun p => (selectBestPosition p.2 tuning chordNotes opts
          (rand p.1)).map
          (fun position => (⟨position.string, position.fret⟩ : TabNote))) := by
  unfold generatePhrase
  dsimp only
  split <;> split <;>
    first
      | exact Or.inl rfl
      | exact Or.inr rfl

/-- Every tab note emitted by `generatePhrase` uses a string index of the
tuning and a fret in 0..12, for any options and random draws. -/
lemma generatePhrase_notes_bound {chordName : String}
    {chordNotes scaleNotes tuning : List String} {opts : GenerationOptions}
    {rand : Nat → Nat} {tn : TabNote}
    (h : tn ∈ (generatePhrase chordName chordNotes scaleNotes tuning opts
      rand).notes) :
    tn.string < tuning.length ∧ tn.fret ≤ 12 := by
  rcases generatePhrase_notes_cases chordName chordNotes scaleNotes tuning
    opts rand with hc | hc
  · rw [hc] at h
    cases h
  · rw [hc] at h
    rw [List.mem_filterMap] at h
    obtain ⟨p, hp, hsel⟩ := h
    rw [Option.map_eq_some'] at hsel
    obtain ⟨pos, hpos, rfl⟩ := hsel
    have hm := mem_findNotePositions (selectBestPosition_mem hpos)
    exact ⟨hm.1, hm.2.2.1⟩

/-- C8: for every 6-element tuning of canonical notes and all other inputs
(chords, scales, options, random draws), every `TabNote` in a phrase
returned by `generatePhrase` or by `generateProgressionPhrases` has a
string index in [0, 5] and a fret in [0, 12]. -/
theorem phrase_notes_invariant (tuning : List String)
    (h6 : tuning.length = 6) (hcanon : ∀ t ∈ tuning, t ∈ allNotes) :
    (∀ (chordName : String) (chordNotes scaleNotes : List String)
      (opts : GenerationOptions) (rand : Nat → Nat) (tn : TabNote),
      tn ∈ (generatePhrase chordName chordNotes scaleNotes tuning opts
        rand).notes →
      tn.string ≤ 5 ∧ tn.fret ≤ 12) ∧
    (∀ (prog : List ChordEntry) (scaleNotes : List String)
      (opts : GenerationOptions) (randVar : Nat → Nat)
      (randPos : Nat → Nat → Nat) (ph : TabPhrase) (tn : TabNote),
      ph ∈ generateProgressionPhrases prog scaleNotes tuning opts randVar
        randPos →
      tn ∈ ph.notes → tn.string ≤ 5 ∧ tn.fret ≤ 12) := by
  have hbase : ∀ (chordName : String) (chordNotes scaleNotes : List String)
      (opts : GenerationOptions) (rand : Nat → Nat) (tn : TabNote),
      tn ∈ (generatePhrase chordName chordNotes scaleNotes tuning opts
        rand).notes →
      tn.string ≤ 5 ∧ tn.fret ≤ 12 := by
    intro name cn sn opts rand tn h
    have hb := generatePhrase_notes_bound h
    rw [h6] at hb
    exact ⟨by omega, hb.2⟩
  refine ⟨hbase, ?_⟩
  intro prog sn opts rv rp ph tn hph htn
  unfold generateProgressionPhrases at hph
  rw [List.mem_filterMap] at hph
  obtain ⟨p, hp, hpe⟩ := hph
  simp only [phraseForEntry] at hpe
  split at hpe
  · cases hpe
  · split at hpe
    · cases hpe
    · rw [Option.some_inj] at hpe
      subst hpe
      exact hbase _ _ _ _ _ _ htn

/-- Witness for C8: the invariant instantiated at the standard tuning,
whose hypotheses hold by evaluation. -/
theorem phrase_notes_invariant_witness :
    (stdTuning.length = 6 ∧ (∀ t ∈ stdTuning, t ∈ allNotes)) ∧
    (∀ (chordName : String) (chordNotes scaleNotes : List String)
      (opts : GenerationOptions) (rand : Nat → Nat) (tn : TabNote),
      tn ∈ (generatePhrase chordName chordNotes scaleNotes stdTuning opts
        rand).notes →
      tn.string ≤ 5 ∧ tn.fret ≤ 12) :=
  ⟨⟨by decide, by decide⟩,
   (phrase_notes_invariant stdTuning (by decide) (by decide)).1⟩
